import Mathlib

/-!
Verification of the voxel chunk meshing and scheduling core of `vx_bevy`.

The scheduling layer is embedded from `src/voxel/world/render.rs`
(`queue_meshing`, `mesh_chunks`, `WorldChunksMeshingFrameBudget`,
`VoxelWorldRenderingPlugin`).  The greedy mesher (`mesh_buffer`,
`MeshBuffers`) lives in a crate of the repository whose sources are not
available here; its embedding is modelled from the specification of the
greedy face-merging algorithm (directions, per-slice face masks, greedy
rectangle growth, quad emission) and is marked as such below.
-/

/-- Voxel: a small copyable material identity; the reserved value 0 is the
empty voxel ("no geometry"). -/
abbrev Voxel := Nat

/-- The reserved empty voxel value. -/
def emptyVoxel : Voxel := 0

/-- A chunk's padded dense voxel buffer, addressed by padded in-chunk
coordinates; a one-cell border surrounds the real cells 1..L so neighbor
visibility can be tested without cross-chunk lookups. -/
abbrev ChunkBuffer := Nat → Nat → Nat → Voxel

/-- Chunk edge length constant of the repository (`CHUNK_LENGTH`). -/
def CHUNK_LENGTH : Nat := 16

/-- The six axis-aligned face directions swept by the greedy mesher. -/
inductive Dir where
  | xPos | xNeg | yPos | yNeg | zPos | zNeg
deriving DecidableEq

/-- Unit normal of a face direction. -/
def Dir.normal : Dir → Int × Int × Int
  | .xPos => (1, 0, 0)
  | .xNeg => (-1, 0, 0)
  | .yPos => (0, 1, 0)
  | .yNeg => (0, -1, 0)
  | .zPos => (0, 0, 1)
  | .zNeg => (0, 0, -1)

/-- Place a slice index `k` on the sweep axis and in-slice coordinates
`(u, v)` on the remaining two axes. -/
def cellCoord : Dir → Nat → Nat → Nat → Nat × Nat × Nat
  | .xPos, k, u, v => (k, u, v)
  | .xNeg, k, u, v => (k, u, v)
  | .yPos, k, u, v => (u, k, v)
  | .yNeg, k, u, v => (u, k, v)
  | .zPos, k, u, v => (u, v, k)
  | .zNeg, k, u, v => (u, v, k)

/-- Coordinate of the neighbor in the sweep direction. -/
def neighborCoord : Dir → Nat → Nat → Nat → Nat × Nat × Nat
  | .xPos, k, u, v => (k + 1, u, v)
  | .xNeg, k, u, v => (k - 1, u, v)
  | .yPos, k, u, v => (u, k + 1, v)
  | .yNeg, k, u, v => (u, k - 1, v)
  | .zPos, k, u, v => (u, v, k + 1)
  | .zNeg, k, u, v => (u, v, k - 1)

/-- Read a buffer at a coordinate triple. -/
def voxAt (buf : ChunkBuffer) (c : Nat × Nat × Nat) : Voxel :=
  buf c.1 c.2.1 c.2.2

/-- Modelled from the spec: the per-slice face mask.  A cell is "facing"
(and carries its voxel identity) iff its voxel is non-empty and the
neighbor in the sweep direction is empty; otherwise it contributes no
face. -/
def faceVoxel (buf : ChunkBuffer) (d : Dir) (k u v : Nat) : Option Voxel :=
  if voxAt buf (cellCoord d k u v) ≠ emptyVoxel ∧
      voxAt buf (neighborCoord d k u v) = emptyVoxel then
    some (voxAt buf (cellCoord d k u v))
  else
    none

/-- A maximal merged rectangle found in one slice: origin `(u, v)`,
extents `(w, h)`, all covered cells carrying voxel identity `m`. -/
structure Rect where
  u : Nat
  v : Nat
  w : Nat
  h : Nat
  m : Voxel
deriving DecidableEq

/-- Length of the run of consecutive positions starting at `s` (bounded by
the fuel `n`) on which `p` holds. -/
def matchRun (p : Nat → Bool) : Nat → Nat → Nat
  | _, 0 => 0
  | s, n + 1 => if p s then matchRun p (s + 1) n + 1 else 0

/-- Cells covered by a `w × h` rectangle with origin `(u, v)`. -/
def rectCells (u v w h : Nat) : List (Nat × Nat) :=
  (List.range h).flatMap fun j => (List.range w).map fun i => (u + i, v + j)

/-- Modelled from the spec: extend a rectangle in the first in-slice axis
while all cells remain uncovered and carry the same identity. -/
def growWidth (cell : Nat → Nat → Option Voxel) (visited : List (Nat × Nat))
    (m : Voxel) (u v L : Nat) : Nat :=
  1 + matchRun (fun u2 => decide (cell u2 v = some m ∧ (u2, v) ∉ visited)) (u + 1) (L - u)

/-- A whole row of `w` cells at height `v2` matches identity `m` and is
uncovered. -/
def rowMatches (cell : Nat → Nat → Option Voxel) (visited : List (Nat × Nat))
    (m : Voxel) (u w v2 : Nat) : Bool :=
  decide (∀ i, i < w → cell (u + i) v2 = some m ∧ (u + i, v2) ∉ visited)

/-- Modelled from the spec: extend the rectangle in the second in-slice
axis while every cell in the new row matches. -/
def growHeight (cell : Nat → Nat → Option Voxel) (visited : List (Nat × Nat))
    (m : Voxel) (u w v L : Nat) : Nat :=
  1 + matchRun (rowMatches cell visited m u w) (v + 1) (L - v)

/-- One step of the greedy scan: skip non-facing or already covered cells,
otherwise grow a maximal rectangle, emit it, and mark its cells visited. -/
def greedyStep (L : Nat) (cell : Nat → Nat → Option Voxel)
    (s : List Rect × List (Nat × Nat)) (c : Nat × Nat) :
    List Rect × List (Nat × Nat) :=
  match cell c.1 c.2 with
  | none => s
  | some m =>
    if c ∈ s.2 then s
    else
      let w := growWidth cell s.2 m c.1 c.2 L
      let h := growHeight cell s.2 m c.1 w c.2 L
      (s.1 ++ [⟨c.1, c.2, w, h, m⟩], s.2 ++ rectCells c.1 c.2 w h)

/-- Row-major scan order over the real cells `1..L` of a slice. -/
def scanOrder (L : Nat) : List (Nat × Nat) :=
  (List.range L).flatMap fun j => (List.range L).map fun i => (i + 1, j + 1)

/-- Modelled from the spec: greedily merge adjacent facing cells of one
slice into maximal rectangles using a visited mask. -/
def greedySlice (L : Nat) (cell : Nat → Nat → Option Voxel) : List Rect :=
  ((scanOrder L).foldl (greedyStep L cell) ([], [])).1

/-- A merged quad: its face direction, slice index, and in-slice rectangle. -/
structure Quad where
  d : Dir
  k : Nat
  u : Nat
  v : Nat
  w : Nat
  h : Nat
  m : Voxel
deriving DecidableEq

/-- Rectangles of one slice lifted to quads of the given direction/slice. -/
def sliceQuads (L : Nat) (buf : ChunkBuffer) (d : Dir) (k : Nat) : List Quad :=
  (greedySlice L (fun u v => faceVoxel buf d k u v)).map
    fun r => { d := d, k := k, u := r.u, v := r.v, w := r.w, h := r.h, m := r.m }

/-- The six face directions, in sweep order. -/
def allDirs : List Dir := [.xPos, .xNeg, .yPos, .yNeg, .zPos, .zNeg]

/-- Modelled from the spec: all merged quads of a chunk buffer, accumulated
across the 6 directions and the `L` slices of each. -/
def allQuads (L : Nat) (buf : ChunkBuffer) : List Quad :=
  allDirs.flatMap fun d => (List.range L).flatMap fun k => sliceQuads L buf d (k + 1)

/-- The mesh output: positions, normals, texcoords (index-aligned with
positions) and triangle indices. -/
structure Mesh where
  positions : List (ℚ × ℚ × ℚ)
  normals : List (Int × Int × Int)
  uvs : List (ℚ × ℚ)
  indices : List Nat
deriving DecidableEq

/-- The empty mesh. -/
def emptyMesh : Mesh := ⟨[], [], [], []⟩

/-- The slice plane on which a quad's corners are emitted: the far side of
the cell for positive directions, the near side otherwise. -/
def facePlane (d : Dir) (k : Nat) : Nat :=
  match d with
  | .xPos => k + 1
  | .yPos => k + 1
  | .zPos => k + 1
  | _ => k

/-- A corner's 3D grid position from its in-slice coordinates. -/
def cornerPos (d : Dir) (k a b : Nat) : Nat × Nat × Nat :=
  cellCoord d (facePlane d k) a b

/-- Scale an integer grid position uniformly by the caller's unit scale. -/
def scalePos (scale : ℚ) (p : Nat × Nat × Nat) : ℚ × ℚ × ℚ :=
  (scale * (p.1 : ℚ), scale * (p.2.1 : ℚ), scale * (p.2.2 : ℚ))

/-- The four corner positions of a merged quad, at integer grid positions
scaled by the unit scale. -/
def quadCorners (q : Quad) (scale : ℚ) : List (ℚ × ℚ × ℚ) :=
  [scalePos scale (cornerPos q.d q.k q.u q.v),
   scalePos scale (cornerPos q.d q.k (q.u + q.w) q.v),
   scalePos scale (cornerPos q.d q.k q.u (q.v + q.h)),
   scalePos scale (cornerPos q.d q.k (q.u + q.w) (q.v + q.h))]

/-- UVs proportional to the quad's in-slice extents, scaled by the
caller-supplied texel scale. -/
def quadUVs (q : Quad) (scale : ℚ) : List (ℚ × ℚ) :=
  [(0, 0), (scale * (q.w : ℚ), 0), (0, scale * (q.h : ℚ)),
   (scale * (q.w : ℚ), scale * (q.h : ℚ))]

/-- Emit one quad into the accumulated mesh: 4 vertices, 4 normals, 4 UVs
and 2 triangles (6 indices) referencing the newly appended vertices. -/
def emitQuad (scale : ℚ) (msh : Mesh) (q : Quad) : Mesh :=
  { positions := msh.positions ++ quadCorners q scale
    normals := msh.normals ++ List.replicate 4 q.d.normal
    uvs := msh.uvs ++ quadUVs q scale
    indices := msh.indices ++
      [msh.positions.length, msh.positions.length + 1, msh.positions.length + 2,
       msh.positions.length + 1, msh.positions.length + 3, msh.positions.length + 2] }

/-- Accumulate all quads into the shared vertex/index/normal/uv lists. -/
def emitQuads (scale : ℚ) (qs : List Quad) : Mesh :=
  qs.foldl (emitQuad scale) emptyMesh

/-- Modelled from the spec: the reusable per-worker scratch buffers of the
mesher (`MeshBuffers` of the repository's meshing crate, not present under
the available sources): a visited mask and a pending quad list, cleared
(capacity retained, which is not observable functionally) at the start of
every meshing call. -/
structure MeshBuffers where
  visited : List (Nat × Nat)
  quads : List Quad

/-- A freshly allocated (empty) scratch buffer set, as built by
`MeshBuffers::new(ChunkShape)`. -/
def MeshBuffers.new : MeshBuffers := ⟨[], []⟩

/-- Modelled from the spec: `mesh_buffer(buffer, scratch, mesh, scale)` of
the repository's meshing crate.  The scratch buffers are cleared at the
start of the call, so the produced mesh depends only on the buffer and the
scale; the returned scratch holds the call's working state. -/
def mesh_buffer (L : Nat) (buf : ChunkBuffer) (buffers : MeshBuffers)
    (scale : ℚ) : Mesh × MeshBuffers :=
  (emitQuads scale (allQuads L buf), { visited := [], quads := allQuads L buf })

/-- The mesh produced for one chunk buffer by a meshing unit of
`mesh_chunks` (scale 1.0, as passed at the call site). -/
def meshOf (buf : ChunkBuffer) : Mesh :=
  (mesh_buffer CHUNK_LENGTH buf MeshBuffers.new 1).1

/-- Chunk coordinate key (`ChunkKey`, an integer 3-vector). -/
abbrev ChunkKey := Int × Int × Int

/-- The per-tick meshing budget resource (`WorldChunksMeshingFrameBudget`
from `render.rs`): a bare unsigned integer field. -/
structure WorldChunksMeshingFrameBudget where
  meshes_per_frame : Nat

/-- The budget resource inserted by `VoxelWorldRenderingPlugin::build`:
16 meshes per frame. -/
def VoxelWorldRenderingPlugin_insertedBudget : WorldChunksMeshingFrameBudget :=
  { meshes_per_frame := 16 }

/-- The world state visible to the chunk rendering stage: entities with a
`NeedsMeshing` marker (in query iteration order), per-entity `Chunk` and
`Handle<Mesh>` components, the mesh assets store keyed by handle id, the
voxel map, and the coordinate-to-entity index (`ChunkEntities`). -/
structure WorldState where
  markers : List Nat
  chunkOf : Nat → ChunkKey
  handles : Nat → Nat
  assets : Nat → Mesh
  voxelMap : ChunkKey → Option ChunkBuffer
  chunkEntities : ChunkKey → Option Nat

/-- Write a mesh into the assets store at one handle id, in place
(`*meshes.get_mut(handle).unwrap() = mesh`). -/
def updateAsset (a : Nat → Mesh) (hid : Nat) (msh : Mesh) : Nat → Mesh :=
  fun hid2 => if hid2 = hid then msh else a hid2

/-- Insert a `NeedsMeshing` marker component: idempotent, a present marker
stays put. -/
def insertMarker (ms : List Nat) (e : Nat) : List Nat :=
  if e ∈ ms then ms else ms ++ [e]

/-- The selection pass of `mesh_chunks`: for each selected entity fetch its
buffer via `chunks.buffer_at(chunk.0).unwrap()`.  A missing buffer panics
(the `unwrap`), modelled as `none`. -/
def collectPairs (st : WorldState) : List Nat → Option (List (Nat × ChunkBuffer))
  | [] => some []
  | e :: rest =>
    match st.voxelMap (st.chunkOf e) with
    | none => none
    | some buf => (collectPairs st rest).map fun ps => (e, buf) :: ps

/-- One run of the chunk rendering stage on the `NeedsMeshing` working set:
`queue_meshing` turns pending `ChunkUpdateEvent`s into marker-insert
commands; `mesh_chunks` selects up to `meshes_per_frame` marked entities
(in query order), meshes their buffers, writes each mesh into the asset of
the entity's existing handle, and issues marker-remove commands.  Commands
are applied at stage end in system order: the inserts of `queue_meshing`
first, then the removes of `mesh_chunks`. -/
def applyTick (fb : WorldChunksMeshingFrameBudget) (events : List ChunkKey)
    (st : WorldState) : Option WorldState :=
  match collectPairs st (st.markers.take fb.meshes_per_frame) with
  | none => none
  | some ps =>
    some { st with
      assets := ps.foldl (fun a p => updateAsset a (st.handles p.1) (meshOf p.2)) st.assets
      markers := ((events.filterMap st.chunkEntities).foldl insertMarker st.markers).filter
        (fun e => decide (e ∉ st.markers.take fb.meshes_per_frame)) }

/-! ### Helper lemmas about the mesher -/

/-- A fold whose step fixes every state returns its initial state. -/
theorem foldl_fixed {α β : Type} (f : α → β → α) (h : ∀ a b, f a b = a) :
    ∀ (l : List β) (a : α), l.foldl f a = a := by
  intro l
  induction l with
  | nil => intro a; rfl
  | cons b l ih => intro a; rw [List.foldl_cons, h a b]; exact ih a

/-- On a buffer whose cells are all empty, no cell of any slice is facing. -/
theorem faceVoxel_all_empty (buf : ChunkBuffer)
    (h : ∀ x y z, buf x y z = emptyVoxel) (d : Dir) (k u v : Nat) :
    faceVoxel buf d k u v = none := by
  have hv : ∀ c, voxAt buf c = emptyVoxel := fun c => h c.1 c.2.1 c.2.2
  simp [faceVoxel, hv]

/-- The greedy merge of a slice with no facing cell produces no rectangle. -/
theorem greedySlice_of_none (L : Nat) (cell : Nat → Nat → Option Voxel)
    (hc : ∀ u v, cell u v = none) : greedySlice L cell = [] := by
  unfold greedySlice
  rw [foldl_fixed (greedyStep L cell) (fun s c => by simp [greedyStep, hc c.1 c.2])]

/-- An all-empty buffer produces no quad in any direction or slice. -/
theorem allQuads_all_empty (L : Nat) (buf : ChunkBuffer)
    (h : ∀ x y z, buf x y z = emptyVoxel) : allQuads L buf = [] := by
  unfold allQuads
  rw [List.flatMap_eq_nil_iff]
  intro d _
  rw [List.flatMap_eq_nil_iff]
  intro k _
  unfold sliceQuads
  rw [greedySlice_of_none L _ (fun u v => faceVoxel_all_empty buf h d (k + 1) u v)]
  rfl

/-- Each emitted quad contributes exactly 4 vertices, 4 normals, 4 UVs and
6 indices, all referencing the 4 new vertices; folding preserves index
validity and the per-quad counts. -/
theorem emitQuads_foldl_invariant (scale : ℚ) :
    ∀ (qs : List Quad) (msh : Mesh),
      (∀ i ∈ msh.indices, i < msh.positions.length) →
      (qs.foldl (emitQuad scale) msh).positions.length
          = msh.positions.length + 4 * qs.length ∧
      (qs.foldl (emitQuad scale) msh).indices.length
          = msh.indices.length + 6 * qs.length ∧
      ∀ i ∈ (qs.foldl (emitQuad scale) msh).indices,
        i < (qs.foldl (emitQuad scale) msh).positions.length := by
  intro qs
  induction qs with
  | nil =>
    intro msh hinv
    refine ⟨by simp, by simp, ?_⟩
    simpa using hinv
  | cons q qs ih =>
    intro msh hinv
    have hcorners : (quadCorners q scale).length = 4 := by rfl
    have hposlen : (emitQuad scale msh q).positions.length
        = msh.positions.length + 4 := by
      simp [emitQuad, hcorners]
    have hidxlen : (emitQuad scale msh q).indices.length
        = msh.indices.length + 6 := by
      simp [emitQuad]
    have hinv2 : ∀ i ∈ (emitQuad scale msh q).indices,
        i < (emitQuad scale msh q).positions.length := by
      intro i hi
      rw [hposlen]
      simp only [emitQuad, List.mem_append] at hi
      rcases hi with hi | hi
      · exact lt_of_lt_of_le (hinv i hi) (by omega)
      · simp only [List.mem_cons, List.not_mem_nil, or_false] at hi
        rcases hi with h1 | h1 | h1 | h1 | h1 | h1 <;> omega
    obtain ⟨h1, h2, h3⟩ := ih (emitQuad scale msh q) hinv2
    rw [List.foldl_cons]
    refine ⟨?_, ?_, h3⟩
    · rw [h1, hposlen]; simp [List.length_cons]; ring
    · rw [h2, hidxlen]; simp [List.length_cons]; ring

/-! ### Claims about the greedy mesher (modelled from the spec) -/

/-- C4: every entry of the index list of a generated mesh is strictly
below the number of vertices, and the index count is exactly three times
the triangle count (two triangles per merged quad), hence a multiple of 3. -/
theorem mesh_index_invariant (L : Nat) (buf : ChunkBuffer) (s : MeshBuffers)
    (scale : ℚ) :
    (∀ i ∈ (mesh_buffer L buf s scale).1.indices,
        i < (mesh_buffer L buf s scale).1.positions.length) ∧
    (mesh_buffer L buf s scale).1.indices.length
        = 3 * (2 * (allQuads L buf).length) := by
  have h := emitQuads_foldl_invariant scale (allQuads L buf) emptyMesh (by simp [emptyMesh])
  obtain ⟨h1, h2, h3⟩ := h
  constructor
  · intro i hi
    exact h3 i hi
  · show (emitQuads scale (allQuads L buf)).indices.length = _
    unfold emitQuads
    rw [h2]
    simp [emptyMesh]
    ring

/-- C5: the mesher is a deterministic function of its input buffer: two
runs with any two scratch buffer sets produce identical vertex, index,
normal and uv sequences. -/
theorem mesh_deterministic (L : Nat) (buf : ChunkBuffer)
    (s1 s2 : MeshBuffers) (scale : ℚ) :
    (mesh_buffer L buf s1 scale).1 = (mesh_buffer L buf s2 scale).1 := rfl

/-- C6: a chunk buffer in which every cell is the reserved empty voxel
yields a mesh with zero vertices and zero indices, as a normal result. -/
theorem empty_chunk_empty_mesh (L : Nat) (buf : ChunkBuffer) (s : MeshBuffers)
    (scale : ℚ) (h : ∀ x y z, buf x y z = emptyVoxel) :
    (mesh_buffer L buf s scale).1.positions = [] ∧
    (mesh_buffer L buf s scale).1.indices = [] := by
  show (emitQuads scale (allQuads L buf)).positions = [] ∧
      (emitQuads scale (allQuads L buf)).indices = []
  rw [allQuads_all_empty L buf h]
  exact ⟨rfl, rfl⟩

/-- The all-empty chunk buffer. -/
def bufA : ChunkBuffer := fun _ _ _ => emptyVoxel

/-- Witness for C6 at a concrete input: the all-empty buffer at the
repository chunk size meshes to zero vertices and zero indices. -/
theorem empty_chunk_empty_mesh_witness :
    (mesh_buffer CHUNK_LENGTH bufA MeshBuffers.new 1).1.positions = [] ∧
    (mesh_buffer CHUNK_LENGTH bufA MeshBuffers.new 1).1.indices = [] :=
  empty_chunk_empty_mesh CHUNK_LENGTH bufA MeshBuffers.new 1 (fun _ _ _ => rfl)

/-- Sequential meshing calls threading one shared scratch buffer set
through every call, returning the produced meshes in order. -/
def runWithSharedBuffers (L : Nat) (scale : ℚ) :
    MeshBuffers → List ChunkBuffer → List Mesh
  | _, [] => []
  | s, b :: rest =>
    (mesh_buffer L b s scale).1 ::
      runWithSharedBuffers L scale (mesh_buffer L b s scale).2 rest

/-- Sequential meshing calls each using a freshly allocated scratch set. -/
def runWithFreshBuffers (L : Nat) (scale : ℚ) (bufs : List ChunkBuffer) :
    List Mesh :=
  bufs.map fun b => (mesh_buffer L b MeshBuffers.new scale).1

/-- C9: reusing one fixed scratch buffer set across any sequence of meshing
calls produces the same meshes as allocating a fresh scratch set per call -
scratch buffers carry no semantic state between calls. -/
theorem scratch_reuse_no_state_leak (L : Nat) (scale : ℚ) :
    ∀ (bufs : List ChunkBuffer) (s : MeshBuffers),
      runWithSharedBuffers L scale s bufs = runWithFreshBuffers L scale bufs := by
  intro bufs
  induction bufs with
  | nil => intro s; rfl
  | cons b rest ih =>
    intro s
    show (mesh_buffer L b s scale).1 ::
        runWithSharedBuffers L scale (mesh_buffer L b s scale).2 rest
      = (mesh_buffer L b MeshBuffers.new scale).1 :: runWithFreshBuffers L scale rest
    rw [ih]
    rfl

/-! ### Helper lemmas about the scheduler -/

/-- The selection pass, when it succeeds, yields one buffer per selected
entity, in selection order. -/
theorem collectPairs_spec (st : WorldState) :
    ∀ (l : List Nat) (ps : List (Nat × ChunkBuffer)),
      collectPairs st l = some ps → ps.length = l.length ∧ ps.map Prod.fst = l := by
  intro l
  induction l with
  | nil =>
    intro ps hps
    simp only [collectPairs, Option.some.injEq] at hps
    subst hps
    exact ⟨rfl, rfl⟩
  | cons e rest ih =>
    intro ps hps
    simp only [collectPairs] at hps
    cases hvm : st.voxelMap (st.chunkOf e) with
    | none => rw [hvm] at hps; exact absurd hps (by simp)
    | some buf =>
      rw [hvm] at hps
      cases hrec : collectPairs st rest with
      | none => rw [hrec] at hps; exact absurd hps (by simp)
      | some qs =>
        rw [hrec] at hps
        have hps2 : (e, buf) :: qs = ps := by simpa using hps
        subst hps2
        obtain ⟨hl, hm⟩ := ih qs hrec
        exact ⟨by simp [hl], by simp [hm]⟩

/-- The selection pass succeeds whenever every selected entity's buffer is
present in the voxel map. -/
theorem collectPairs_total (st : WorldState) :
    ∀ l : List Nat, (∀ e ∈ l, (st.voxelMap (st.chunkOf e)).isSome) →
      ∃ ps, collectPairs st l = some ps := by
  intro l
  induction l with
  | nil => intro _; exact ⟨[], rfl⟩
  | cons e rest ih =>
    intro h
    obtain ⟨buf, hbuf⟩ := Option.isSome_iff_exists.mp (h e (by simp))
    obtain ⟨qs, hqs⟩ := ih fun e2 he2 => h e2 (by simp [he2])
    exact ⟨(e, buf) :: qs, by simp [collectPairs, hbuf, hqs]⟩

/-- The selection pass aborts (the `unwrap` panics) whenever some selected
entity's buffer is absent from the voxel map. -/
theorem collectPairs_missing (st : WorldState) :
    ∀ (l : List Nat) (e : Nat), e ∈ l → st.voxelMap (st.chunkOf e) = none →
      collectPairs st l = none := by
  intro l
  induction l with
  | nil => intro e he; exact absurd he (by simp)
  | cons a rest ih =>
    intro e he hnone
    simp only [collectPairs]
    rcases List.mem_cons.mp he with rfl | hmem
    · rw [hnone]
    · cases hvm : st.voxelMap (st.chunkOf a) with
      | none => rfl
      | some buf => rw [ih e hmem hnone]; rfl

/-- Filtering a disjoint append on non-membership in the first part keeps
exactly the second part. -/
theorem filter_append_not_mem (t d : List Nat) (hdisj : ∀ e ∈ d, e ∉ t) :
    (t ++ d).filter (fun e => decide (e ∉ t)) = d := by
  rw [List.filter_append]
  have h1 : t.filter (fun e => decide (e ∉ t)) = [] := by
    apply List.filter_eq_nil_iff.mpr
    intro a ha
    simp [ha]
  have h2 : d.filter (fun e => decide (e ∉ t)) = d := by
    apply List.filter_eq_self.mpr
    intro a ha
    simp [hdisj a ha]
  rw [h1, h2, List.nil_append]

/-- Clearing the markers of the selected prefix of a duplicate-free marker
list leaves exactly the unselected suffix. -/
theorem filter_not_mem_take (l : List Nat) (b : Nat) (hnd : l.Nodup) :
    l.filter (fun e => decide (e ∉ l.take b)) = l.drop b := by
  have hdisj : ∀ e ∈ l.drop b, e ∉ l.take b := by
    intro e hed het
    exact (List.disjoint_take_drop hnd (le_refl b)) het hed
  have h := filter_append_not_mem (l.take b) (l.drop b) hdisj
  rwa [List.take_append_drop] at h

/-- Marker insertion commands preserve present markers and establish the
inserted ones. -/
theorem mem_foldl_insertMarker :
    ∀ (l ms : List Nat) (e : Nat), e ∈ ms ∨ e ∈ l →
      e ∈ l.foldl insertMarker ms := by
  intro l
  induction l with
  | nil =>
    intro ms e he
    rcases he with h | h
    · exact h
    · exact absurd h (by simp)
  | cons a rest ih =>
    intro ms e he
    rw [List.foldl_cons]
    have hstep : e ∈ ms → e ∈ insertMarker ms a := by
      intro hems
      unfold insertMarker
      by_cases hin : a ∈ ms
      · rw [if_pos hin]; exact hems
      · rw [if_neg hin]; exact List.mem_append_left _ hems
    have hself : a ∈ insertMarker ms a := by
      unfold insertMarker
      by_cases hin : a ∈ ms
      · rw [if_pos hin]; exact hin
      · rw [if_neg hin]; exact List.mem_append_right _ (by simp)
    rcases he with h | h
    · exact ih _ e (Or.inl (hstep h))
    · rcases List.mem_cons.mp h with rfl | hmem
      · exact ih _ e (Or.inl hself)
      · exact ih _ e (Or.inr hmem)

/-- An asset slot whose handle is hit by no applied pair is unchanged by
the application fold. -/
theorem foldl_updateAsset_ne (hf : Nat → Nat) (mf : ChunkBuffer → Mesh) :
    ∀ (ps : List (Nat × ChunkBuffer)) (a : Nat → Mesh) (hid : Nat),
      (∀ p ∈ ps, hf p.1 ≠ hid) →
      (ps.foldl (fun a p => updateAsset a (hf p.1) (mf p.2)) a) hid = a hid := by
  intro ps
  induction ps with
  | nil => intro a hid _; rfl
  | cons p rest ih =>
    intro a hid hne
    rw [List.foldl_cons]
    rw [ih _ hid fun p2 hp2 => hne p2 (by simp [hp2])]
    unfold updateAsset
    rw [if_neg fun h => hne p (by simp) h.symm]

/-- When the applied pairs target pairwise distinct handles, the asset at a
pair's handle ends up holding exactly that pair's mesh. -/
theorem foldl_updateAsset_mem (hf : Nat → Nat) (mf : ChunkBuffer → Mesh) :
    ∀ (ps : List (Nat × ChunkBuffer)) (a : Nat → Mesh) (p : Nat × ChunkBuffer),
      p ∈ ps → (ps.map fun p2 => hf p2.1).Nodup →
      (ps.foldl (fun a p2 => updateAsset a (hf p2.1) (mf p2.2)) a) (hf p.1) = mf p.2 := by
  intro ps
  induction ps with
  | nil => intro a p hp _; exact absurd hp (by simp)
  | cons q rest ih =>
    intro a p hp hnd
    rw [List.map_cons, List.nodup_cons] at hnd
    rw [List.foldl_cons]
    rcases List.mem_cons.mp hp with rfl | hmem
    · rw [foldl_updateAsset_ne hf mf rest _ (hf p.1)
        fun p2 hp2 h => hnd.1 (h ▸ List.mem_map_of_mem _ hp2)]
      unfold updateAsset
      rw [if_pos rfl]
    · exact ih _ p hmem hnd.2

/-- Inversion of a successful tick: the selection pass succeeded and the
resulting world is the input with the applied assets and the reconciled
marker set. -/
theorem applyTick_eq_some (fb : WorldChunksMeshingFrameBudget)
    (events : List ChunkKey) (st st2 : WorldState)
    (h : applyTick fb events st = some st2) :
    ∃ ps, collectPairs st (st.markers.take fb.meshes_per_frame) = some ps ∧
      st2 = { st with
        assets := ps.foldl
          (fun a p => updateAsset a (st.handles p.1) (meshOf p.2)) st.assets
        markers := ((events.filterMap st.chunkEntities).foldl insertMarker st.markers).filter
          (fun e => decide (e ∉ st.markers.take fb.meshes_per_frame)) } := by
  unfold applyTick at h
  cases hc : collectPairs st (st.markers.take fb.meshes_per_frame) with
  | none => rw [hc] at h; exact absurd h (by simp)
  | some ps =>
    rw [hc] at h
    exact ⟨ps, rfl, (Option.some.injEq _ _ ▸ h).symm⟩

/-! ### Concrete world states used by witnesses and counterexamples -/

/-- Chunk coordinate (0,0,0). -/
def key0 : ChunkKey := (0, 0, 0)

/-- Chunk coordinate (1,0,0). -/
def key1 : ChunkKey := (1, 0, 0)

/-- A world with two distinct dirty chunk entities 0 and 1, every chunk
buffer present, per-entity handles, and a coordinate index for both. -/
def stTwoDirty : WorldState where
  markers := [0, 1]
  chunkOf := fun e => ((e : Int), 0, 0)
  handles := fun e => e
  assets := fun _ => emptyMesh
  voxelMap := fun _ => some bufA
  chunkEntities := fun c => if c = key0 then some 0 else if c = key1 then some 1 else none

/-- A world with one dirty chunk entity whose buffer is absent from the
voxel map. -/
def stMissingBuf : WorldState where
  markers := [0]
  chunkOf := fun e => ((e : Int), 0, 0)
  handles := fun e => e
  assets := fun _ => emptyMesh
  voxelMap := fun _ => none
  chunkEntities := fun _ => none

/-! ### Claims about the scheduler -/

/-- C1: with N duplicate-free dirty chunks whose buffers are all present
and a per-tick budget B < N, one tick applies exactly B meshing results,
clears exactly the selected prefix (leaving N - B chunks dirty), and no
tick ever applies more than its budget. -/
theorem tick_budget_conservation (fb : WorldChunksMeshingFrameBudget)
    (st : WorldState)
    (hB : fb.meshes_per_frame < st.markers.length)
    (hnd : st.markers.Nodup)
    (hbuf : ∀ e ∈ st.markers.take fb.meshes_per_frame,
      (st.voxelMap (st.chunkOf e)).isSome) :
    (∃ ps, collectPairs st (st.markers.take fb.meshes_per_frame) = some ps ∧
      ps.length = fb.meshes_per_frame) ∧
    (applyTick fb [] st).map WorldState.markers
        = some (st.markers.drop fb.meshes_per_frame) ∧
    (st.markers.drop fb.meshes_per_frame).length
        = st.markers.length - fb.meshes_per_frame ∧
    ∀ (st2 : WorldState) (fb2 : WorldChunksMeshingFrameBudget)
      (ps2 : List (Nat × ChunkBuffer)),
      collectPairs st2 (st2.markers.take fb2.meshes_per_frame) = some ps2 →
      ps2.length ≤ fb2.meshes_per_frame := by
  obtain ⟨ps, hps⟩ := collectPairs_total st _ hbuf
  refine ⟨⟨ps, hps, ?_⟩, ?_, List.length_drop _ _, ?_⟩
  · rw [(collectPairs_spec st _ ps hps).1, List.length_take,
      Nat.min_eq_left (Nat.le_of_lt hB)]
  · unfold applyTick
    rw [hps]
    have hmk : ((([] : List ChunkKey).filterMap st.chunkEntities).foldl
          insertMarker st.markers).filter
        (fun e => decide (e ∉ st.markers.take fb.meshes_per_frame))
          = st.markers.drop fb.meshes_per_frame := by
      rw [List.filterMap_nil, List.foldl_nil,
        filter_not_mem_take st.markers fb.meshes_per_frame hnd]
    exact congrArg some hmk
  · intro st2 fb2 ps2 hps2
    rw [(collectPairs_spec st2 _ ps2 hps2).1, List.length_take]
    exact Nat.min_le_left _ _

/-- Witness for C1: with two dirty chunks and budget 1, a tick leaves
exactly entity 1 dirty. -/
theorem tick_budget_conservation_witness :
    (applyTick { meshes_per_frame := 1 } [] stTwoDirty).map WorldState.markers
      = some [1] :=
  (tick_budget_conservation { meshes_per_frame := 1 } stTwoDirty
    (by decide) (by decide) (fun _ _ => rfl)).2.1

/-- C2 counterexample: with a dirty chunk entity whose buffer is absent,
the tick aborts (the `unwrap` in `mesh_chunks` panics, modelled as `none`)
instead of silently skipping the coordinate and clearing its marker. -/
theorem missing_buffer_panics_cex :
    applyTick { meshes_per_frame := 16 } [] stMissingBuf = none := rfl

/-- C2 amended: when a selected chunk's buffer is absent from the voxel
map, `mesh_chunks` panics on `buffer_at(coord).unwrap()` - the tick aborts
rather than skipping; the code relies on the invariant that chunk data
exists for every chunk entity. -/
theorem missing_buffer_aborts (fb : WorldChunksMeshingFrameBudget)
    (events : List ChunkKey) (st : WorldState) (e : Nat)
    (he : e ∈ st.markers.take fb.meshes_per_frame)
    (hb : st.voxelMap (st.chunkOf e) = none) :
    applyTick fb events st = none := by
  unfold applyTick
  rw [collectPairs_missing st _ e he hb]

/-- Witness for the amended C2 at a concrete input. -/
theorem missing_buffer_aborts_witness :
    applyTick { meshes_per_frame := 3 } [key0] stMissingBuf = none :=
  missing_buffer_aborts { meshes_per_frame := 3 } [key0] stMissingBuf 0
    (by decide) rfl

/-- C7 counterexample: a zero budget is accepted (the resource is a bare
unsigned integer field, never validated) and a tick under it silently
performs zero work on a world with dirty chunks, without any failure. -/
theorem zero_budget_accepted_cex :
    applyTick { meshes_per_frame := 0 } [] stTwoDirty = some stTwoDirty ∧
    stTwoDirty.markers = [0, 1] :=
  ⟨rfl, rfl⟩

/-- C7 amended: the per-tick budget is a plain unsigned integer field with
no configuration-time validation; zero is accepted and a tick under it
selects nothing, applies zero results and leaves the world unchanged
(negative values are statically unrepresentable). -/
theorem zero_budget_silently_zero_work (st : WorldState) :
    collectPairs st (st.markers.take 0) = some [] ∧
    applyTick { meshes_per_frame := 0 } [] st = some st := by
  refine ⟨rfl, ?_⟩
  have hstep : applyTick { meshes_per_frame := 0 } [] st
      = some { st with
          assets := st.assets
          markers := (st.markers.filter fun e => decide (e ∉ st.markers.take 0)) } := rfl
  rw [hstep]
  have hf : (st.markers.filter fun e => decide (e ∉ st.markers.take 0))
      = st.markers := by
    apply List.filter_eq_self.mpr
    intro a _
    simp
  rw [hf]

/-- C8: the per-tick budget is exposed as the single integer field of the
`WorldChunksMeshingFrameBudget` resource, inserted by the plugin with the
positive default 16; selection is the plain prefix of the dirty query in
iteration order, with no closer-chunk reordering. -/
theorem frame_budget_default_and_selection_order (st : WorldState)
    (fb : WorldChunksMeshingFrameBudget) (ps : List (Nat × ChunkBuffer))
    (hps : collectPairs st (st.markers.take fb.meshes_per_frame) = some ps) :
    VoxelWorldRenderingPlugin_insertedBudget.meshes_per_frame = 16 ∧
    0 < VoxelWorldRenderingPlugin_insertedBudget.meshes_per_frame ∧
    ps.map Prod.fst = st.markers.take fb.meshes_per_frame :=
  ⟨rfl, by decide, (collectPairs_spec st _ ps hps).2⟩

/-- Witness for C8 at a concrete input: budget 1 selects exactly the first
marked entity. -/
theorem frame_budget_default_and_selection_order_witness :
    VoxelWorldRenderingPlugin_insertedBudget.meshes_per_frame = 16 ∧
    0 < VoxelWorldRenderingPlugin_insertedBudget.meshes_per_frame ∧
    ([((0 : Nat), bufA)].map Prod.fst) = stTwoDirty.markers.take 1 :=
  frame_budget_default_and_selection_order stTwoDirty { meshes_per_frame := 1 }
    [(0, bufA)] rfl

/-- C3 counterexample: entity 0 is dirty and selected, and its coordinate
receives a new dirty mark in the same tick (a `ChunkUpdateEvent` processed
by `queue_meshing`); after the results are applied the marker set is empty:
the re-marked coordinate is NOT still marked dirty, because the marker
remove command of `mesh_chunks` is applied after the insert command of
`queue_meshing`. -/
theorem remark_while_in_flight_cleared_cex :
    (applyTick { meshes_per_frame := 16 } [key0] stTwoDirty).map
        WorldState.markers = some [] := rfl

/-- C3 amended: a dirty mark processed in the same tick in which the
chunk's result is applied is cleared together with the in-flight marker
(the stage applies the insert before the remove), but no update is lost:
the applied mesh is computed from the chunk's buffer as it stands at tick
time, and a dirty mark processed in a tick in which the chunk is not
selected re-admits the chunk for a later tick. -/
theorem remark_dirty_handling (fb : WorldChunksMeshingFrameBudget)
    (events : List ChunkKey) (st : WorldState) (e f : Nat) (c : ChunkKey)
    (ps : List (Nat × ChunkBuffer)) (b : ChunkBuffer)
    (hps : collectPairs st (st.markers.take fb.meshes_per_frame) = some ps)
    (hmem : (e, b) ∈ ps)
    (hnd : (ps.map fun p => st.handles p.1).Nodup)
    (hc : c ∈ events) (hce : st.chunkEntities c = some f)
    (hf : f ∉ st.markers.take fb.meshes_per_frame) :
    (applyTick fb events st).map (fun w => decide (e ∈ w.markers)) = some false ∧
    (applyTick fb events st).map (fun w => w.assets (st.handles e)) = some (meshOf b) ∧
    (applyTick fb events st).map (fun w => decide (f ∈ w.markers)) = some true := by
  have hesel : e ∈ st.markers.take fb.meshes_per_frame := by
    have h := List.mem_map_of_mem Prod.fst hmem
    rwa [(collectPairs_spec st _ ps hps).2] at h
  have happ : applyTick fb events st
      = some { st with
          assets := ps.foldl
            (fun a p => updateAsset a (st.handles p.1) (meshOf p.2)) st.assets
          markers := ((events.filterMap st.chunkEntities).foldl
              insertMarker st.markers).filter
            (fun e2 => decide (e2 ∉ st.markers.take fb.meshes_per_frame)) } := by
    unfold applyTick
    rw [hps]
  rw [happ]
  refine ⟨?_, ?_, ?_⟩
  · refine congrArg some ?_
    apply decide_eq_false
    intro hmem2
    have := (List.mem_filter.mp hmem2).2
    simp only [decide_eq_true_eq] at this
    exact this hesel
  · exact congrArg some
      (foldl_updateAsset_mem st.handles meshOf ps st.assets (e, b) hmem hnd)
  · refine congrArg some ?_
    apply decide_eq_true
    apply List.mem_filter.mpr
    refine ⟨?_, by simpa using hf⟩
    apply mem_foldl_insertMarker
    exact Or.inr (List.mem_filterMap.mpr ⟨c, hc, hce⟩)

/-- Witness for the amended C3 at a concrete input: budget 1 selects
entity 0, both chunks receive update events; entity 0 ends unmarked with
its asset holding the mesh of its current buffer, entity 1 ends marked. -/
theorem remark_dirty_handling_witness :
    ((applyTick { meshes_per_frame := 1 } [key0, key1] stTwoDirty).map
        fun w => decide ((0 : Nat) ∈ w.markers)) = some false ∧
    ((applyTick { meshes_per_frame := 1 } [key0, key1] stTwoDirty).map
        fun w => w.assets (stTwoDirty.handles 0)) = some (meshOf bufA) ∧
    ((applyTick { meshes_per_frame := 1 } [key0, key1] stTwoDirty).map
        fun w => decide ((1 : Nat) ∈ w.markers)) = some true :=
  remark_dirty_handling { meshes_per_frame := 1 } [key0, key1] stTwoDirty 0 1 key1
    [(0, bufA)] bufA rfl (List.mem_singleton.mpr rfl) (by decide) (by decide) rfl
    (by decide)

/-- C10: applying a tick's results mutates, in place through each selected
entity's pre-existing `Handle<Mesh>` component, only the assets those
handles reference: the handle components themselves are unchanged, any
asset whose handle is referenced by no selected entity is unchanged, and
(for pairwise distinct handles) each selected entity's asset receives
exactly the mesh generated from its buffer. -/
theorem mesh_chunks_in_place_application (fb : WorldChunksMeshingFrameBudget)
    (events : List ChunkKey) (st : WorldState) (ps : List (Nat × ChunkBuffer))
    (hps : collectPairs st (st.markers.take fb.meshes_per_frame) = some ps) :
    ((applyTick fb events st).map WorldState.handles = some st.handles) ∧
    (∀ hid : Nat, (∀ e ∈ st.markers.take fb.meshes_per_frame, st.handles e ≠ hid) →
      (applyTick fb events st).map (fun w => w.assets hid) = some (st.assets hid)) ∧
    ((ps.map fun p => st.handles p.1).Nodup →
      ∀ p ∈ ps, (applyTick fb events st).map (fun w => w.assets (st.handles p.1))
        = some (meshOf p.2)) := by
  have happ : applyTick fb events st
      = some { st with
          assets := ps.foldl
            (fun a p => updateAsset a (st.handles p.1) (meshOf p.2)) st.assets
          markers := ((events.filterMap st.chunkEntities).foldl
              insertMarker st.markers).filter
            (fun e2 => decide (e2 ∉ st.markers.take fb.meshes_per_frame)) } := by
    unfold applyTick
    rw [hps]
  rw [happ]
  refine ⟨rfl, ?_, ?_⟩
  · intro hid hne
    refine congrArg some ?_
    apply foldl_updateAsset_ne
    intro p hp
    apply hne
    have h := List.mem_map_of_mem Prod.fst hp
    rwa [(collectPairs_spec st _ ps hps).2] at h
  · intro hnd p hp
    exact congrArg some (foldl_updateAsset_mem st.handles meshOf ps st.assets p hp hnd)

/-- Witness for C10 at a concrete input: the handle components survive a
tick unchanged. -/
theorem mesh_chunks_in_place_application_witness :
    (applyTick { meshes_per_frame := 1 } [] stTwoDirty).map WorldState.handles
      = some stTwoDirty.handles :=
  (mesh_chunks_in_place_application { meshes_per_frame := 1 } [] stTwoDirty
    [(0, bufA)] rfl).1
